import Mathlib

/-!
Shallow embedding of the order-confirmation core of the books-orders API:
the optimistic-locking stock decrement (OrderRepository.try_decrement_book_optimistic),
the idempotency store (OrderRepository.get_idempotency / save_idempotency),
the order status update (OrderRepository.set_status) and the confirmation
orchestrator (OrderService.confirm_order).

The database is modelled as explicit association lists (one per table), and
each repository/service function as a pure state-passing function. SQL
statements are modelled row by row: the conditional UPDATE of the stock
decrement updates every row matching its WHERE clause and reports the affected
row count; the ON CONFLICT DO NOTHING insert of the idempotency record checks
key presence first. Python truthiness of the optional idempotency key
(None and the empty string are both falsy) is modelled by keyVal.
Confirmation runs in one transaction: the rollback on the shortage path
restores the state the call started from.
-/

namespace BooksOrders

/-- A row of the books table: the fields touched by the stock ledger.
Stock and version are non-negative by the table check constraints. -/
structure Book where
  stock : Nat
  version : Nat
  deriving DecidableEq, Repr

/-- A row of the orders table: status is one of DRAFT, CONFIRMED, CANCELLED
by the check constraint; created_at is the ISO-8601 rendering of the
timestamp. -/
structure Order where
  status : String
  created_at : String
  deriving DecidableEq, Repr

/-- A row of the order_items table; (order_id, product_id) is the primary
key and qty is positive by the check constraint. -/
structure OrderItem where
  order_id : Nat
  product_id : Nat
  qty : Nat
  deriving DecidableEq, Repr

/-- One entry of the shortage list built by confirm_order. -/
structure Shortage where
  product_id : Nat
  requested : Nat
  available : Nat
  deriving DecidableEq, Repr

/-- The confirmation response payload {id, status, created_at}. -/
structure Response where
  id : Nat
  status : String
  created_at : String
  deriving DecidableEq, Repr

/-- A row of the idempotency_keys table (keyed by its id string). -/
structure IdemRecord where
  order_id : Nat
  response : Response
  deriving DecidableEq, Repr

/-- The tenant database: one association list per table, keyed by primary
key where the key is a scalar. -/
structure DB where
  books : List (Nat × Book)
  orders : List (Nat × Order)
  order_items : List OrderItem
  idempotency : List (String × IdemRecord)
  deriving DecidableEq, Repr

/-- Point lookup by primary key (SELECT ... WHERE pk = k LIMIT 1). -/
def findKey {α β : Type} [DecidableEq α] (k : α) : List (α × β) → Option β
  | [] => none
  | e :: rest => if e.1 = k then some e.2 else findKey k rest

/-- The conditional UPDATE of try_decrement_book_optimistic: set
stock = stock - qty, version = version + 1 on every row matching
WHERE id = id AND version = ver AND stock >= qty; returns the updated
table and the affected row count. -/
def casUpdate (id ver qty : Nat) : List (Nat × Book) → List (Nat × Book) × Nat
  | [] => ([], 0)
  | e :: rest =>
    let r := casUpdate id ver qty rest
    if e.1 = id ∧ e.2.version = ver ∧ qty ≤ e.2.stock then
      ((e.1, ⟨e.2.stock - qty, e.2.version + 1⟩) :: r.1, r.2 + 1)
    else (e :: r.1, r.2)

/-- OrderRepository.try_decrement_book_optimistic: read (version, stock);
missing row gives (false, 0); insufficient stock short-circuits with
(false, stock); otherwise run the guarded update and succeed iff exactly
one row was affected, reporting the stock observed before the attempt. -/
def try_decrement_book_optimistic (db : DB) (book_id : Nat) (qty : Nat) :
    (Bool × Nat) × DB :=
  match findKey book_id db.books with
  | none => ((false, 0), db)
  | some b =>
    if b.stock < qty then ((false, b.stock), db)
    else
      let r := casUpdate book_id b.version qty db.books
      ((r.2 == 1, b.stock), { db with books := r.1 })

/-- OrderRepository.set_status: UPDATE orders SET status = new_status
WHERE id = order_id. -/
def set_status (db : DB) (order_id : Nat) (new_status : String) : DB :=
  { db with
    orders := db.orders.map fun e =>
      if e.1 = order_id then (e.1, { e.2 with status := new_status }) else e }

/-- OrderRepository.list_items: SELECT * FROM order_items
WHERE order_id = order_id. -/
def list_items (db : DB) (order_id : Nat) : List OrderItem :=
  db.order_items.filter fun it => it.order_id == order_id

/-- OrderRepository.get_idempotency: point lookup by key. -/
def get_idempotency (db : DB) (key : String) : Option IdemRecord :=
  findKey key db.idempotency

/-- OrderRepository.save_idempotency: INSERT ... ON CONFLICT (id) DO
NOTHING — a silent no-op when the key already exists. -/
def save_idempotency (db : DB) (key : String) (order_id : Nat)
    (response : Response) : DB :=
  match findKey key db.idempotency with
  | some _ => db
  | none => { db with idempotency := (key, ⟨order_id, response⟩) :: db.idempotency }

/-- Python truthiness of the optional idempotency key: None and the empty
string are both falsy, so both skip the cache lookup and the record save. -/
def keyVal : Option String → Option String
  | none => none
  | some k => if k = "" then none else some k

/-- Business-level failures raised by confirm_order: HTTP 404 (order not
found) and HTTP 409 with the shortage list. -/
inductive ConfirmError where
  | orderNotFound
  | insufficientStock (shortages : List Shortage)
  deriving DecidableEq, Repr

/-- The save-idempotency step of confirm_order, guarded by key truthiness
(already normalized into the optional key). -/
def saveIfKey (db : DB) (k? : Option String) (order_id : Nat)
    (response : Response) : DB :=
  match k? with
  | some k => save_idempotency db k order_id response
  | none => db

/-- The per-line loop of confirm_order: try to decrement stock for each
item in order, collecting a shortage entry {product_id, requested,
available} for every failing line without stopping at the first failure. -/
def confirmLoop : DB → List OrderItem → List Shortage × DB
  | db, [] => ([], db)
  | db, it :: rest =>
    let r := try_decrement_book_optimistic db it.product_id it.qty
    let acc := confirmLoop r.2 rest
    if r.1.1 then acc
    else (⟨it.product_id, it.qty, r.1.2⟩ :: acc.1, acc.2)

/-- OrderService.confirm_order after the idempotency-cache check: load the
order (404 if absent); a non-DRAFT order is an idempotent success returning
its current status; otherwise run the decrement loop, roll back and fail
with 409 if any line is short, else set the status to CONFIRMED, commit,
and persist the idempotency record when a key was supplied. -/
def confirmMain (db : DB) (order_id : Nat) (k? : Option String) :
    Except ConfirmError Response × DB :=
  match findKey order_id db.orders with
  | none => (.error .orderNotFound, db)
  | some order =>
    if order.status ≠ "DRAFT" then
      let response : Response := ⟨order_id, order.status, order.created_at⟩
      (.ok response, saveIfKey db k? order_id response)
    else
      let r := confirmLoop db (list_items db order_id)
      if r.1 ≠ [] then
        (.error (.insufficientStock r.1), db)
      else
        let db2 := set_status r.2 order_id "CONFIRMED"
        let response : Response := ⟨order_id, "CONFIRMED", order.created_at⟩
        (.ok response, saveIfKey db2 k? order_id response)

/-- OrderService.confirm_order: when a truthy idempotency key is supplied
and a record exists, return its stored response immediately with no further
reads or writes; otherwise run the confirmation. -/
def confirm_order (db : DB) (order_id : Nat) (idempotency_key : Option String) :
    Except ConfirmError Response × DB :=
  match keyVal idempotency_key with
  | some k =>
    match get_idempotency db k with
    | some cached => (.ok cached.response, db)
    | none => confirmMain db order_id (some k)
  | none => confirmMain db order_id none

/-- The shortage entry a line would produce against a given database state:
none when the line is satisfiable, some entry with the observed availability
(0 for a missing product) when it is short. -/
def shortageOf (db : DB) (it : OrderItem) : Option Shortage :=
  match findKey it.product_id db.books with
  | none => some ⟨it.product_id, it.qty, 0⟩
  | some b => if b.stock < it.qty then some ⟨it.product_id, it.qty, b.stock⟩ else none

/-- A concrete tenant state for instantiating the theorems: book 1 has
stock 5 at version 1, book 2 is out of stock, order 10 is a draft for
3 copies of book 1, order 11 is already confirmed. -/
def exDB : DB :=
  { books := [(1, ⟨5, 1⟩), (2, ⟨0, 1⟩)],
    orders := [(10, ⟨"DRAFT", "t0"⟩), (11, ⟨"CONFIRMED", "t1"⟩)],
    order_items := [⟨10, 1, 3⟩],
    idempotency := [] }

/-- A variant of the concrete state where draft order 10 asks for 2 copies
of book 1 (in stock) and 1 copy of book 2 (out of stock). -/
def exDBShort : DB :=
  { exDB with order_items := [⟨10, 1, 2⟩, ⟨10, 2, 1⟩] }

/-- The state reached from exDB by confirming order 10 under key k1:
book 1 decremented to stock 2 at version 2, order 10 CONFIRMED, and the
response recorded under k1. -/
def exDBPost : DB :=
  { books := [(1, ⟨2, 2⟩), (2, ⟨0, 1⟩)],
    orders := [(10, ⟨"CONFIRMED", "t0"⟩), (11, ⟨"CONFIRMED", "t1"⟩)],
    order_items := [⟨10, 1, 3⟩],
    idempotency := [("k1", ⟨10, ⟨10, "CONFIRMED", "t0"⟩⟩)] }

/-- A concrete state holding a stored idempotency record under key k9 for
an order id (77) that does not exist in the orders table. -/
def exDBCached : DB :=
  { books := [], orders := [], order_items := [],
    idempotency := [("k9", ⟨77, ⟨77, "CONFIRMED", "t9"⟩⟩)] }

/-! Basic lemmas about point lookup and the conditional stock update. -/

theorem findKey_eq_none_iff {α β : Type} [DecidableEq α] (k : α) (l : List (α × β)) :
    findKey k l = none ↔ k ∉ l.map Prod.fst := by
  induction l with
  | nil => simp [findKey]
  | cons e rest ih =>
    rcases eq_or_ne e.1 k with h | h
    · simp [findKey, h]
    · simp [findKey, h, ih, Ne.symm h]

theorem casUpdate_keys (id ver qty : Nat) (l : List (Nat × Book)) :
    (casUpdate id ver qty l).1.map Prod.fst = l.map Prod.fst := by
  induction l with
  | nil => rfl
  | cons e rest ih =>
    simp only [casUpdate]
    split
    · simpa using ih
    · simpa using ih

theorem findKey_casUpdate_ne (id ver qty p : Nat) (l : List (Nat × Book))
    (h : p ≠ id) :
    findKey p (casUpdate id ver qty l).1 = findKey p l := by
  induction l with
  | nil => rfl
  | cons e rest ih =>
    simp only [casUpdate]
    split
    · next hc =>
      have hne : ¬ e.1 = p := by rw [hc.1]; exact fun hh => h hh.symm
      simp only [findKey, if_neg hne]
      exact ih
    · simp only [findKey]
      split
      · rfl
      · exact ih

theorem casUpdate_not_mem (id ver qty : Nat) (l : List (Nat × Book))
    (h : id ∉ l.map Prod.fst) : casUpdate id ver qty l = (l, 0) := by
  induction l with
  | nil => rfl
  | cons e rest ih =>
    simp only [List.map_cons, List.mem_cons, not_or] at h
    have hcond : ¬(e.1 = id ∧ e.2.version = ver ∧ qty ≤ e.2.stock) :=
      fun hc => h.1 hc.1.symm
    simp only [casUpdate, ih h.2, if_neg hcond]

theorem casUpdate_hit (id qty : Nat) (l : List (Nat × Book)) (b : Book)
    (hnd : (l.map Prod.fst).Nodup) (hf : findKey id l = some b)
    (hq : qty ≤ b.stock) :
    (casUpdate id b.version qty l).2 = 1 ∧
    findKey id (casUpdate id b.version qty l).1 =
      some ⟨b.stock - qty, b.version + 1⟩ := by
  induction l with
  | nil => simp [findKey] at hf
  | cons e rest ih =>
    simp only [List.map_cons, List.nodup_cons] at hnd
    by_cases he : e.1 = id
    · rw [findKey, if_pos he] at hf
      have hb : e.2 = b := by injection hf
      have hrest : id ∉ rest.map Prod.fst := he ▸ hnd.1
      have hcond : e.1 = id ∧ e.2.version = b.version ∧ qty ≤ e.2.stock :=
        ⟨he, by rw [hb], by rw [hb]; exact hq⟩
      simp only [casUpdate, casUpdate_not_mem id b.version qty rest hrest,
        if_pos hcond]
      exact ⟨by simp, by simp [findKey, he, hb]⟩
    · rw [findKey, if_neg he] at hf
      have hr := ih hnd.2 hf
      have hcond : ¬(e.1 = id ∧ e.2.version = b.version ∧ qty ≤ e.2.stock) :=
        fun hc => he hc.1
      simp only [casUpdate, if_neg hcond]
      exact ⟨hr.1, by rw [findKey, if_neg he]; exact hr.2⟩

/-! Lemmas about the stock-decrement operation. -/

theorem try_decrement_frame (db : DB) (pid q : Nat) :
    (try_decrement_book_optimistic db pid q).2.orders = db.orders ∧
    (try_decrement_book_optimistic db pid q).2.order_items = db.order_items ∧
    (try_decrement_book_optimistic db pid q).2.idempotency = db.idempotency ∧
    (try_decrement_book_optimistic db pid q).2.books.map Prod.fst =
      db.books.map Prod.fst := by
  unfold try_decrement_book_optimistic
  cases findKey pid db.books with
  | none => exact ⟨rfl, rfl, rfl, rfl⟩
  | some b =>
    by_cases h : b.stock < q
    · simp [h]
    · simp [h, casUpdate_keys]

theorem try_decrement_findKey_ne (db : DB) (pid q p : Nat) (h : p ≠ pid) :
    findKey p (try_decrement_book_optimistic db pid q).2.books =
      findKey p db.books := by
  unfold try_decrement_book_optimistic
  cases findKey pid db.books with
  | none => rfl
  | some b =>
    by_cases hs : b.stock < q
    · simp [hs]
    · simp [hs, findKey_casUpdate_ne _ _ _ _ _ h]

theorem try_decrement_success (db : DB) (pid q : Nat) (b : Book)
    (hnd : (db.books.map Prod.fst).Nodup) (hf : findKey pid db.books = some b)
    (hq : q ≤ b.stock) :
    (try_decrement_book_optimistic db pid q).1 = (true, b.stock) ∧
    findKey pid (try_decrement_book_optimistic db pid q).2.books =
      some ⟨b.stock - q, b.version + 1⟩ := by
  have hc := casUpdate_hit pid q db.books b hnd hf hq
  simp [try_decrement_book_optimistic, hf, not_lt.mpr hq, hc.1, hc.2]

/-! Lemmas about the per-line decrement loop of confirm_order. -/

theorem confirmLoop_cons_snd (db : DB) (it : OrderItem) (rest : List OrderItem) :
    (confirmLoop db (it :: rest)).2 =
      (confirmLoop (try_decrement_book_optimistic db it.product_id it.qty).2
        rest).2 := by
  simp only [confirmLoop]
  split <;> rfl

theorem confirmLoop_frame (items : List OrderItem) (db : DB) :
    (confirmLoop db items).2.orders = db.orders ∧
    (confirmLoop db items).2.order_items = db.order_items ∧
    (confirmLoop db items).2.idempotency = db.idempotency ∧
    (confirmLoop db items).2.books.map Prod.fst = db.books.map Prod.fst := by
  induction items generalizing db with
  | nil => exact ⟨rfl, rfl, rfl, rfl⟩
  | cons it rest ih =>
    have h1 := try_decrement_frame db it.product_id it.qty
    have h2 := ih (try_decrement_book_optimistic db it.product_id it.qty).2
    rw [confirmLoop_cons_snd]
    exact ⟨h2.1.trans h1.1, h2.2.1.trans h1.2.1, h2.2.2.1.trans h1.2.2.1,
      h2.2.2.2.trans h1.2.2.2⟩

theorem confirmLoop_findKey_not_mem (items : List OrderItem) (db : DB) (p : Nat)
    (h : p ∉ items.map OrderItem.product_id) :
    findKey p (confirmLoop db items).2.books = findKey p db.books := by
  induction items generalizing db with
  | nil => rfl
  | cons it rest ih =>
    simp only [List.map_cons, List.mem_cons, not_or] at h
    rw [confirmLoop_cons_snd, ih _ h.2,
      try_decrement_findKey_ne db it.product_id it.qty p h.1]

theorem shortageOf_congr (db1 db2 : DB) (it : OrderItem)
    (h : findKey it.product_id db1.books = findKey it.product_id db2.books) :
    shortageOf db1 it = shortageOf db2 it := by
  unfold shortageOf
  rw [h]

theorem confirmLoop_shortages (items : List OrderItem) (db : DB)
    (hnd : (db.books.map Prod.fst).Nodup)
    (hpid : (items.map OrderItem.product_id).Nodup) :
    (confirmLoop db items).1 = items.filterMap (shortageOf db) := by
  induction items generalizing db with
  | nil => rfl
  | cons it rest ih =>
    simp only [List.map_cons, List.nodup_cons] at hpid
    cases hb : findKey it.product_id db.books with
    | none =>
      have ht : try_decrement_book_optimistic db it.product_id it.qty =
          ((false, 0), db) := by
        simp [try_decrement_book_optimistic, hb]
      have hs : shortageOf db it = some ⟨it.product_id, it.qty, 0⟩ := by
        simp [shortageOf, hb]
      simp [confirmLoop, ht, hs, List.filterMap_cons, ih db hnd hpid.2]
    | some b =>
      by_cases hlt : b.stock < it.qty
      · have ht : try_decrement_book_optimistic db it.product_id it.qty =
            ((false, b.stock), db) := by
          simp [try_decrement_book_optimistic, hb, hlt]
        have hs : shortageOf db it = some ⟨it.product_id, it.qty, b.stock⟩ := by
          simp [shortageOf, hb, hlt]
        simp [confirmLoop, ht, hs, List.filterMap_cons, ih db hnd hpid.2]
      · have hts := try_decrement_success db it.product_id it.qty b hnd hb
          (not_lt.mp hlt)
        have hnd2 : ((try_decrement_book_optimistic db it.product_id
            it.qty).2.books.map Prod.fst).Nodup := by
          rw [(try_decrement_frame db it.product_id it.qty).2.2.2]
          exact hnd
        have hrest := ih (try_decrement_book_optimistic db it.product_id
          it.qty).2 hnd2 hpid.2
        have hcong : ∀ x ∈ rest,
            shortageOf (try_decrement_book_optimistic db it.product_id
              it.qty).2 x = shortageOf db x := by
          intro x hx
          apply shortageOf_congr
          apply try_decrement_findKey_ne
          intro hpe
          exact hpid.1 (hpe ▸ List.mem_map_of_mem OrderItem.product_id hx)
        have hnone : shortageOf db it = none := by
          simp [shortageOf, hb, hlt]
        simp [confirmLoop, hts.1, List.filterMap_cons, hnone]
        rw [hrest]
        exact List.filterMap_congr hcong

theorem confirmLoop_books (items : List OrderItem) (db : DB)
    (hnd : (db.books.map Prod.fst).Nodup)
    (hpid : (items.map OrderItem.product_id).Nodup)
    (hall : ∀ x ∈ items, shortageOf db x = none) :
    ∀ x ∈ items, ∀ b, findKey x.product_id db.books = some b →
      findKey x.product_id (confirmLoop db items).2.books =
        some ⟨b.stock - x.qty, b.version + 1⟩ := by
  induction items generalizing db with
  | nil => intro x hx; cases hx
  | cons it rest ih =>
    simp only [List.map_cons, List.nodup_cons] at hpid
    intro x hx b hbx
    have hit := hall it (List.mem_cons_self it rest)
    cases hbi : findKey it.product_id db.books with
    | none => simp [shortageOf, hbi] at hit
    | some bi =>
      simp only [shortageOf, hbi] at hit
      rw [ite_eq_right_iff] at hit
      have hq : it.qty ≤ bi.stock := by
        by_contra hc
        exact Option.noConfusion (hit (not_le.mp hc))
      have hts := try_decrement_success db it.product_id it.qty bi hnd hbi hq
      have hnd2 : ((try_decrement_book_optimistic db it.product_id
          it.qty).2.books.map Prod.fst).Nodup := by
        rw [(try_decrement_frame db it.product_id it.qty).2.2.2]
        exact hnd
      rcases List.mem_cons.mp hx with rfl | hx2
      · have hbb : b = bi := by rw [hbx] at hbi; injection hbi
        rw [confirmLoop_cons_snd,
          confirmLoop_findKey_not_mem rest _ x.product_id hpid.1, hts.2, hbb]
      · have hne : x.product_id ≠ it.product_id := by
          intro hpe
          exact hpid.1 (hpe ▸ List.mem_map_of_mem OrderItem.product_id hx2)
        have hall2 : ∀ y ∈ rest,
            shortageOf (try_decrement_book_optimistic db it.product_id
              it.qty).2 y = none := by
          intro y hy
          have hyne : y.product_id ≠ it.product_id := by
            intro hpe
            exact hpid.1 (hpe ▸ List.mem_map_of_mem OrderItem.product_id hy)
          rw [shortageOf_congr _ db y
            (try_decrement_findKey_ne db it.product_id it.qty y.product_id hyne)]
          exact hall y (List.mem_cons_of_mem it hy)
        have hbx2 : findKey x.product_id (try_decrement_book_optimistic db
            it.product_id it.qty).2.books = some b := by
          rw [try_decrement_findKey_ne db it.product_id it.qty x.product_id hne]
          exact hbx
        rw [confirmLoop_cons_snd]
        exact ih _ hnd2 hpid.2 hall2 x hx2 b hbx2

/-! Lemmas about the status update. -/

theorem findKey_map_update {β : Type} (l : List (Nat × β)) (oid : Nat) (f : β → β) :
    findKey oid (l.map fun e => if e.1 = oid then (e.1, f e.2) else e) =
      (findKey oid l).map f := by
  induction l with
  | nil => rfl
  | cons e rest ih =>
    by_cases h : e.1 = oid
    · simp [findKey, h, ih]
    · simp [findKey, h, ih]

theorem findKey_map_update_ne {β : Type} (l : List (Nat × β)) (oid p : Nat)
    (f : β → β) (h : p ≠ oid) :
    findKey p (l.map fun e => if e.1 = oid then (e.1, f e.2) else e) =
      findKey p l := by
  induction l with
  | nil => rfl
  | cons e rest ih =>
    by_cases he : e.1 = oid
    · have hep : ¬ e.1 = p := by rw [he]; exact fun hh => h hh.symm
      simp [findKey, he, hep, ih, Ne.symm h]
    · by_cases hp : e.1 = p <;> simp [findKey, he, hp, ih, h]

theorem set_status_findKey_self (db : DB) (oid : Nat) (s : String) :
    findKey oid (set_status db oid s).orders =
      (findKey oid db.orders).map fun o => { o with status := s } :=
  findKey_map_update db.orders oid (fun o => { o with status := s })

theorem set_status_findKey_ne (db : DB) (oid : Nat) (s : String) (p : Nat)
    (h : p ≠ oid) :
    findKey p (set_status db oid s).orders = findKey p db.orders :=
  findKey_map_update_ne db.orders oid p (fun o => { o with status := s }) h

/-! Lemmas about the idempotency store. -/

theorem save_idempotency_absent (db : DB) (k : String) (oid : Nat)
    (resp : Response) (h : findKey k db.idempotency = none) :
    save_idempotency db k oid resp =
      { db with idempotency := (k, ⟨oid, resp⟩) :: db.idempotency } := by
  simp [save_idempotency, h]

theorem save_idempotency_existing (db : DB) (k : String) (oid : Nat)
    (resp : Response) (rec : IdemRecord)
    (h : findKey k db.idempotency = some rec) :
    save_idempotency db k oid resp = db := by
  simp [save_idempotency, h]

theorem save_idempotency_frame (db : DB) (k : String) (oid : Nat)
    (resp : Response) :
    (save_idempotency db k oid resp).books = db.books ∧
    (save_idempotency db k oid resp).orders = db.orders ∧
    (save_idempotency db k oid resp).order_items = db.order_items := by
  unfold save_idempotency
  cases findKey k db.idempotency <;> exact ⟨rfl, rfl, rfl⟩

theorem save_idempotency_findKey_self (db : DB) (k : String) (oid : Nat)
    (resp : Response) (h : findKey k db.idempotency = none) :
    findKey k (save_idempotency db k oid resp).idempotency =
      some ⟨oid, resp⟩ := by
  rw [save_idempotency_absent db k oid resp h]
  simp [findKey]

theorem save_idempotency_preserves (db : DB) (k k2 : String) (oid : Nat)
    (resp : Response) (rec : IdemRecord)
    (h : findKey k db.idempotency = some rec) :
    findKey k (save_idempotency db k2 oid resp).idempotency = some rec := by
  unfold save_idempotency
  cases hf : findKey k2 db.idempotency with
  | some r => exact h
  | none =>
    have hne : k2 ≠ k := by
      intro he
      rw [he, h] at hf
      cases hf
    simp [findKey, hne, h]

theorem save_idempotency_nodup (db : DB) (k : String) (oid : Nat)
    (resp : Response) (h : (db.idempotency.map Prod.fst).Nodup) :
    ((save_idempotency db k oid resp).idempotency.map Prod.fst).Nodup := by
  unfold save_idempotency
  cases hf : findKey k db.idempotency with
  | some r => exact h
  | none =>
    simp only [List.map_cons, List.nodup_cons]
    exact ⟨(findKey_eq_none_iff k db.idempotency).mp hf, h⟩

theorem saveIfKey_frame (db : DB) (k? : Option String) (oid : Nat)
    (resp : Response) :
    (saveIfKey db k? oid resp).books = db.books ∧
    (saveIfKey db k? oid resp).orders = db.orders ∧
    (saveIfKey db k? oid resp).order_items = db.order_items := by
  cases k? with
  | none => exact ⟨rfl, rfl, rfl⟩
  | some k => exact save_idempotency_frame db k oid resp

theorem saveIfKey_preserves (db : DB) (k? : Option String) (k : String)
    (oid : Nat) (resp : Response) (rec : IdemRecord)
    (h : findKey k db.idempotency = some rec) :
    findKey k (saveIfKey db k? oid resp).idempotency = some rec := by
  cases k? with
  | none => exact h
  | some k2 => exact save_idempotency_preserves db k k2 oid resp rec h

theorem saveIfKey_nodup (db : DB) (k? : Option String) (oid : Nat)
    (resp : Response) (h : (db.idempotency.map Prod.fst).Nodup) :
    ((saveIfKey db k? oid resp).idempotency.map Prod.fst).Nodup := by
  cases k? with
  | none => exact h
  | some k => exact save_idempotency_nodup db k oid resp h

/-! The composite primary key of order_items gives each order pairwise
distinct product ids among its lines. -/

theorem filter_pairs_nodup (l : List OrderItem) (oid : Nat)
    (h : (l.map fun it => (it.order_id, it.product_id)).Nodup) :
    ((l.filter fun it => it.order_id == oid).map OrderItem.product_id).Nodup := by
  induction l with
  | nil => simp
  | cons it rest ih =>
    simp only [List.map_cons, List.nodup_cons] at h
    by_cases ho : it.order_id = oid
    · rw [List.filter_cons_of_pos (by simp [ho])]
      simp only [List.map_cons, List.nodup_cons]
      refine ⟨?_, ih h.2⟩
      intro hmem
      apply h.1
      simp only [List.mem_map, List.mem_filter] at hmem
      obtain ⟨x, ⟨hxr, hxo⟩, hxp⟩ := hmem
      have hxo2 : x.order_id = oid := by simpa using hxo
      have hpair : (x.order_id, x.product_id) = (it.order_id, it.product_id) := by
        rw [hxo2, ho, hxp]
      rw [← hpair]
      exact List.mem_map_of_mem _ hxr
    · rw [List.filter_cons_of_neg (by simp [ho])]
      exact ih h.2

theorem list_items_pid_nodup (db : DB) (oid : Nat)
    (h : (db.order_items.map fun it => (it.order_id, it.product_id)).Nodup) :
    ((list_items db oid).map OrderItem.product_id).Nodup :=
  filter_pairs_nodup db.order_items oid h

/-! Preservation lemmas for the whole confirmation operation. -/

theorem confirmMain_idem_preserves (db : DB) (oid : Nat) (k? : Option String)
    (k : String) (rec : IdemRecord) (h : findKey k db.idempotency = some rec) :
    findKey k (confirmMain db oid k?).2.idempotency = some rec := by
  cases ho : findKey oid db.orders with
  | none => simp only [confirmMain, ho]; exact h
  | some order =>
    simp only [confirmMain, ho]
    by_cases hs : order.status = "DRAFT"
    · rw [if_neg (not_not_intro hs)]
      split
      · exact h
      · have hidem : (set_status (confirmLoop db (list_items db oid)).2 oid
            "CONFIRMED").idempotency = db.idempotency :=
          (confirmLoop_frame (list_items db oid) db).2.2.1
        apply saveIfKey_preserves
        rw [hidem]
        exact h
    · rw [if_pos hs]
      exact saveIfKey_preserves db k? k oid _ rec h

theorem confirmMain_idem_nodup (db : DB) (oid : Nat) (k? : Option String)
    (h : (db.idempotency.map Prod.fst).Nodup) :
    ((confirmMain db oid k?).2.idempotency.map Prod.fst).Nodup := by
  cases ho : findKey oid db.orders with
  | none => simp only [confirmMain, ho]; exact h
  | some order =>
    simp only [confirmMain, ho]
    by_cases hs : order.status = "DRAFT"
    · rw [if_neg (not_not_intro hs)]
      split
      · exact h
      · have hidem : (set_status (confirmLoop db (list_items db oid)).2 oid
            "CONFIRMED").idempotency = db.idempotency :=
          (confirmLoop_frame (list_items db oid) db).2.2.1
        apply saveIfKey_nodup
        rw [hidem]
        exact h
    · rw [if_pos hs]
      exact saveIfKey_nodup db k? oid _ h

theorem confirm_order_idem_preserves (db : DB) (oid : Nat)
    (key : Option String) (k : String) (rec : IdemRecord)
    (h : findKey k db.idempotency = some rec) :
    findKey k (confirm_order db oid key).2.idempotency = some rec := by
  cases hkv : keyVal key with
  | none =>
    simp only [confirm_order, hkv]
    exact confirmMain_idem_preserves db oid none k rec h
  | some k2 =>
    cases hg : get_idempotency db k2 with
    | some cached => simp only [confirm_order, hkv, hg]; exact h
    | none =>
      simp only [confirm_order, hkv, hg]
      exact confirmMain_idem_preserves db oid (some k2) k rec h

theorem confirm_order_idem_nodup (db : DB) (oid : Nat) (key : Option String)
    (h : (db.idempotency.map Prod.fst).Nodup) :
    ((confirm_order db oid key).2.idempotency.map Prod.fst).Nodup := by
  cases hkv : keyVal key with
  | none =>
    simp only [confirm_order, hkv]
    exact confirmMain_idem_nodup db oid none h
  | some k2 =>
    cases hg : get_idempotency db k2 with
    | some cached => simp only [confirm_order, hkv, hg]; exact h
    | none =>
      simp only [confirm_order, hkv, hg]
      exact confirmMain_idem_nodup db oid (some k2) h

theorem confirmMain_orders_preserve (db : DB) (oid : Nat) (k? : Option String)
    (oid2 : Nat) (o2 : Order) (h : findKey oid2 db.orders = some o2)
    (hs2 : o2.status ≠ "DRAFT") :
    findKey oid2 (confirmMain db oid k?).2.orders = some o2 := by
  cases ho : findKey oid db.orders with
  | none => simp only [confirmMain, ho]; exact h
  | some order =>
    simp only [confirmMain, ho]
    by_cases hs : order.status = "DRAFT"
    · rw [if_neg (not_not_intro hs)]
      have hne : oid2 ≠ oid := by
        intro he
        rw [he, ho] at h
        injection h with h2
        exact hs2 (h2 ▸ hs)
      split
      · exact h
      · rw [(saveIfKey_frame _ k? oid _).2.1,
          set_status_findKey_ne _ oid _ oid2 hne,
          (confirmLoop_frame (list_items db oid) db).1]
        exact h
    · rw [if_pos hs, (saveIfKey_frame db k? oid _).2.1]
      exact h

theorem confirm_order_orders_preserve (db : DB) (oid : Nat)
    (key : Option String) (oid2 : Nat) (o2 : Order)
    (h : findKey oid2 db.orders = some o2) (hs2 : o2.status ≠ "DRAFT") :
    findKey oid2 (confirm_order db oid key).2.orders = some o2 := by
  cases hkv : keyVal key with
  | none =>
    simp only [confirm_order, hkv]
    exact confirmMain_orders_preserve db oid none oid2 o2 h hs2
  | some k2 =>
    cases hg : get_idempotency db k2 with
    | some cached => simp only [confirm_order, hkv, hg]; exact h
    | none =>
      simp only [confirm_order, hkv, hg]
      exact confirmMain_orders_preserve db oid (some k2) oid2 o2 h hs2

/-! Claim theorems. -/

/-- C3: for every existing stock item with quantity q and version v and
every requested quantity r with r ≤ q, TryDecrement returns (true, q), the
item's new quantity is q − r, and its new version is v + 1. -/
theorem try_decrement_success_spec (db : DB) (pid q v r : Nat)
    (hnd : (db.books.map Prod.fst).Nodup)
    (hb : findKey pid db.books = some ⟨q, v⟩) (hr : r ≤ q) :
    (try_decrement_book_optimistic db pid r).1 = (true, q) ∧
    findKey pid (try_decrement_book_optimistic db pid r).2.books =
      some ⟨q - r, v + 1⟩ :=
  try_decrement_success db pid r ⟨q, v⟩ hnd hb hr

/-- Witness for C3: scenario A — TryDecrement(book 1, 3) on stock 5 at
version 1 returns (true, 5) and leaves quantity 2, version 2. -/
theorem try_decrement_success_spec_witness :
    (try_decrement_book_optimistic exDB 1 3).1 = (true, 5) ∧
    findKey 1 (try_decrement_book_optimistic exDB 1 3).2.books =
      some ⟨2, 2⟩ :=
  try_decrement_success_spec exDB 1 5 1 3 (by decide) (by decide) (by decide)

/-- C5: for every existing stock item with quantity q and version v and
every requested quantity r with r > q, TryDecrement returns (false, q) and
leaves the whole state unchanged. -/
theorem try_decrement_insufficient_spec (db : DB) (pid q v r : Nat)
    (hb : findKey pid db.books = some ⟨q, v⟩) (hr : q < r) :
    try_decrement_book_optimistic db pid r = ((false, q), db) := by
  simp [try_decrement_book_optimistic, hb, hr]

/-- Witness for C5: TryDecrement(book 1, 10) on stock 5 fails with
(false, 5) and does not mutate the state. -/
theorem try_decrement_insufficient_spec_witness :
    try_decrement_book_optimistic exDB 1 10 = ((false, 5), exDB) :=
  try_decrement_insufficient_spec exDB 1 5 1 10 (by decide) (by decide)

/-- C8: for every product id with no stock item and every requested
quantity, TryDecrement returns (false, 0) and mutates no state. -/
theorem try_decrement_missing_spec (db : DB) (pid r : Nat)
    (hb : findKey pid db.books = none) :
    try_decrement_book_optimistic db pid r = ((false, 0), db) := by
  simp [try_decrement_book_optimistic, hb]

/-- Witness for C8: TryDecrement on the absent product id 99 returns
(false, 0) and does not mutate the state. -/
theorem try_decrement_missing_spec_witness :
    try_decrement_book_optimistic exDB 99 4 = ((false, 0), exDB) :=
  try_decrement_missing_spec exDB 99 4 (by decide)

/-- C10: the idempotency-cache lookup precedes the order-existence check:
when a truthy key has a stored record, Confirm returns the stored response
with no state change and no OrderNotFound, regardless of the order id. -/
theorem confirm_cache_precedes_load (db : DB) (oid : Nat) (k : String)
    (rec : IdemRecord) (hk : k ≠ "")
    (hc : findKey k db.idempotency = some rec) :
    confirm_order db oid (some k) = (.ok rec.response, db) := by
  simp [confirm_order, keyVal, hk, get_idempotency, hc]

/-- Witness for C10: with a record stored under k9, Confirm(5, k9) returns
the stored response unchanged even though order 5 does not exist. -/
theorem confirm_cache_precedes_load_witness :
    confirm_order exDBCached 5 (some "k9") =
      (.ok ⟨77, "CONFIRMED", "t9"⟩, exDBCached) :=
  confirm_cache_precedes_load exDBCached 5 "k9" ⟨77, ⟨77, "CONFIRMED", "t9"⟩⟩
    (by decide) (by decide)

/-- C7: at most one idempotency record per key ever persists: inserting
under an existing key is a silent no-op (first writer wins), an existing
record survives any confirmation unchanged, and key uniqueness is
preserved by confirmation. -/
theorem idempotency_first_writer_wins (db : DB) (k : String) (rec : IdemRecord)
    (oid2 oid : Nat) (resp : Response) (key : Option String)
    (h : findKey k db.idempotency = some rec) :
    save_idempotency db k oid2 resp = db ∧
    findKey k (confirm_order db oid key).2.idempotency = some rec ∧
    ((db.idempotency.map Prod.fst).Nodup →
      ((confirm_order db oid key).2.idempotency.map Prod.fst).Nodup) :=
  ⟨save_idempotency_existing db k oid2 resp rec h,
   confirm_order_idem_preserves db oid key k rec h,
   fun hnd => confirm_order_idem_nodup db oid key hnd⟩

/-- Witness for C7: replaying a save under the stored key k9 changes
nothing, and confirmation preserves the stored record and key uniqueness. -/
theorem idempotency_first_writer_wins_witness :
    save_idempotency exDBCached "k9" 3 ⟨3, "CONFIRMED", "tX"⟩ = exDBCached ∧
    findKey "k9" (confirm_order exDBCached 5 (some "k9")).2.idempotency =
      some ⟨77, ⟨77, "CONFIRMED", "t9"⟩⟩ ∧
    ((exDBCached.idempotency.map Prod.fst).Nodup →
      ((confirm_order exDBCached 5
        (some "k9")).2.idempotency.map Prod.fst).Nodup) :=
  idempotency_first_writer_wins exDBCached "k9" ⟨77, ⟨77, "CONFIRMED", "t9"⟩⟩
    3 5 ⟨3, "CONFIRMED", "tX"⟩ (some "k9") (by decide)

/-- C9: order status transitions are monotonic: no confirmation call ever
changes an order whose status is CONFIRMED or CANCELLED. -/
theorem confirm_status_monotonic (db : DB) (oid : Nat) (key : Option String)
    (oid2 : Nat) (o2 : Order) (h : findKey oid2 db.orders = some o2)
    (hs : o2.status = "CONFIRMED" ∨ o2.status = "CANCELLED") :
    findKey oid2 (confirm_order db oid key).2.orders = some o2 := by
  apply confirm_order_orders_preserve db oid key oid2 o2 h
  rcases hs with h1 | h1 <;> rw [h1] <;> decide

/-- Witness for C9: confirming draft order 10 leaves confirmed order 11
untouched. -/
theorem confirm_status_monotonic_witness :
    findKey 11 (confirm_order exDB 10 none).2.orders =
      some ⟨"CONFIRMED", "t1"⟩ :=
  confirm_status_monotonic exDB 10 none 11 ⟨"CONFIRMED", "t1"⟩ (by decide)
    (by decide)

/-- C6: confirming a non-DRAFT order with no record for the supplied key
returns a success response carrying the order's current status, id and
created_at, mutates no stock (only the idempotency table changes), and
persists that response under the key. -/
theorem confirm_non_draft_spec (db : DB) (oid : Nat) (order : Order)
    (k : String) (ho : findKey oid db.orders = some order)
    (hs : order.status ≠ "DRAFT") (hk : k ≠ "")
    (hmiss : findKey k db.idempotency = none) :
    confirm_order db oid (some k) =
      (.ok ⟨oid, order.status, order.created_at⟩,
        { db with idempotency :=
            (k, ⟨oid, ⟨oid, order.status, order.created_at⟩⟩) ::
              db.idempotency }) := by
  have hkv : keyVal (some k) = some k := by simp [keyVal, hk]
  simp only [confirm_order, hkv, get_idempotency, hmiss, confirmMain, ho]
  rw [if_pos hs]
  simp only [saveIfKey]
  rw [save_idempotency_absent db k oid _ hmiss]

/-- Witness for C6: confirming already-confirmed order 11 under fresh key
k2 returns its current data and only appends the idempotency record. -/
theorem confirm_non_draft_spec_witness :
    confirm_order exDB 11 (some "k2") =
      (.ok ⟨11, "CONFIRMED", "t1"⟩,
        { exDB with idempotency :=
            [("k2", ⟨11, ⟨11, "CONFIRMED", "t1"⟩⟩)] }) :=
  confirm_non_draft_spec exDB 11 ⟨"CONFIRMED", "t1"⟩ "k2" (by decide)
    (by decide) (by decide) (by decide)

/-- C1: confirming a DRAFT order with at least one failing line (short or
missing product) evaluates every line, fails with InsufficientStock whose
shortage list has exactly one entry {product_id, requested, available} per
failing line, and rolls back to the exact pre-call state — no stock is
decremented and the order remains DRAFT. -/
theorem confirm_shortage_rollback (db : DB) (oid : Nat) (order : Order)
    (hndB : (db.books.map Prod.fst).Nodup)
    (hndI : (db.order_items.map fun it => (it.order_id, it.product_id)).Nodup)
    (ho : findKey oid db.orders = some order) (hd : order.status = "DRAFT")
    (hfail : ∃ it ∈ list_items db oid, shortageOf db it ≠ none) :
    confirm_order db oid none =
      (.error (.insufficientStock
        ((list_items db oid).filterMap (shortageOf db))), db) := by
  have hpid := list_items_pid_nodup db oid hndI
  have hloop := confirmLoop_shortages (list_items db oid) db hndB hpid
  have hne : (list_items db oid).filterMap (shortageOf db) ≠ [] := by
    obtain ⟨it, hit, hsome⟩ := hfail
    obtain ⟨s, hs⟩ := Option.ne_none_iff_exists'.mp hsome
    exact List.ne_nil_of_mem (List.mem_filterMap.mpr ⟨it, hit, hs⟩)
  simp only [confirm_order, keyVal, confirmMain, ho]
  rw [if_neg (not_not_intro hd), hloop, if_pos hne]

/-- Witness for C1: scenario D — order 10 asks for 2 of book 1 (in stock)
and 1 of book 2 (out of stock); Confirm fails with only book 2 reported
short and the state, including book 1's stock, unchanged. -/
theorem confirm_shortage_rollback_witness :
    confirm_order exDBShort 10 none =
      (.error (.insufficientStock [⟨2, 1, 0⟩]), exDBShort) :=
  confirm_shortage_rollback exDBShort 10 ⟨"DRAFT", "t0"⟩ (by decide) (by decide)
    (by decide) (by decide) ⟨⟨10, 2, 1⟩, by decide, by decide⟩

/-- C4: confirming a DRAFT order all of whose lines are satisfiable
decrements each product's stock by the line quantity (bumping its
version), sets the order's status to CONFIRMED, and returns
{id, "CONFIRMED", created_at of the order}. -/
theorem confirm_success_spec (db : DB) (oid : Nat) (order : Order)
    (hndB : (db.books.map Prod.fst).Nodup)
    (hndI : (db.order_items.map fun it => (it.order_id, it.product_id)).Nodup)
    (ho : findKey oid db.orders = some order) (hd : order.status = "DRAFT")
    (hok : ∀ it ∈ list_items db oid, ∃ b,
      findKey it.product_id db.books = some b ∧ it.qty ≤ b.stock) :
    (confirm_order db oid none).1 =
      .ok ⟨oid, "CONFIRMED", order.created_at⟩ ∧
    findKey oid (confirm_order db oid none).2.orders =
      some { order with status := "CONFIRMED" } ∧
    ∀ it ∈ list_items db oid, ∀ b, findKey it.product_id db.books = some b →
      findKey it.product_id (confirm_order db oid none).2.books =
        some ⟨b.stock - it.qty, b.version + 1⟩ := by
  have hpid := list_items_pid_nodup db oid hndI
  have hall : ∀ it ∈ list_items db oid, shortageOf db it = none := by
    intro it hit
    obtain ⟨b, hb, hq⟩ := hok it hit
    simp [shortageOf, hb, not_lt.mpr hq]
  have hloop := confirmLoop_shortages (list_items db oid) db hndB hpid
  have hnil : (list_items db oid).filterMap (shortageOf db) = [] :=
    List.filterMap_eq_nil_iff.mpr hall
  have hco : confirm_order db oid none =
      (.ok ⟨oid, "CONFIRMED", order.created_at⟩,
        set_status (confirmLoop db (list_items db oid)).2 oid "CONFIRMED") := by
    simp only [confirm_order, keyVal, confirmMain, ho]
    rw [if_neg (not_not_intro hd), hloop, hnil, if_neg (by simp)]
    rfl
  refine ⟨by rw [hco], ?_, ?_⟩
  · rw [hco]
    show findKey oid (set_status _ oid "CONFIRMED").orders = _
    rw [set_status_findKey_self,
      (confirmLoop_frame (list_items db oid) db).1, ho]
    rfl
  · intro it hit b hb
    rw [hco]
    exact confirmLoop_books (list_items db oid) db hndB hpid hall it hit b hb

/-- Witness for C4: scenario B — confirming draft order 10 (3 copies of
book 1, stock 5) returns CONFIRMED with the order's creation timestamp,
marks the order CONFIRMED, and leaves book 1 at stock 2, version 2. -/
theorem confirm_success_spec_witness :
    (confirm_order exDB 10 none).1 = .ok ⟨10, "CONFIRMED", "t0"⟩ ∧
    findKey 10 (confirm_order exDB 10 none).2.orders =
      some ⟨"CONFIRMED", "t0"⟩ ∧
    ∀ it ∈ list_items exDB 10, ∀ b,
      findKey it.product_id exDB.books = some b →
      findKey it.product_id (confirm_order exDB 10 none).2.books =
        some ⟨b.stock - it.qty, b.version + 1⟩ :=
  confirm_success_spec exDB 10 ⟨"DRAFT", "t0"⟩ (by decide) (by decide)
    (by decide) (by decide)
    (by
      intro it hit
      have h2 : it ∈ [(⟨10, 1, 3⟩ : OrderItem)] := hit
      have h3 : it = ⟨10, 1, 3⟩ := by simpa using h2
      subst h3
      exact ⟨⟨5, 1⟩, by decide, by decide⟩)

/-- C2: when a first Confirm call under key k succeeds from a state with
no record for k, a second Confirm with the same arguments returns the very
same response and leaves the state exactly as the first call left it — in
particular no stock is decremented again. -/
theorem confirm_idempotent_replay (db db1 : DB) (oid : Nat)
    (key : Option String) (resp : Response)
    (hmiss : ∀ k, keyVal key = some k → findKey k db.idempotency = none)
    (h1 : confirm_order db oid key = (.ok resp, db1)) :
    confirm_order db1 oid key = (.ok resp, db1) := by
  cases hkv : keyVal key with
  | some k =>
    have hm := hmiss k hkv
    simp only [confirm_order, hkv, get_idempotency, hm] at h1
    have hstored : ∃ r : IdemRecord,
        findKey k db1.idempotency = some r ∧ r.response = resp := by
      cases ho : findKey oid db.orders with
      | none =>
        simp only [confirmMain, ho] at h1
        simp at h1
      | some order =>
        simp only [confirmMain, ho] at h1
        by_cases hs : order.status = "DRAFT"
        · rw [if_neg (not_not_intro hs)] at h1
          split at h1
          · simp at h1
          · rw [Prod.mk.injEq] at h1
            obtain ⟨h1a, h1b⟩ := h1
            injection h1a with h1a
            refine ⟨⟨oid, resp⟩, ?_, rfl⟩
            rw [← h1b, ← h1a]
            show findKey k (save_idempotency _ k oid _).idempotency = _
            apply save_idempotency_findKey_self
            have hidem : (set_status (confirmLoop db
                (list_items db oid)).2 oid "CONFIRMED").idempotency =
                db.idempotency :=
              (confirmLoop_frame (list_items db oid) db).2.2.1
            rw [hidem]
            exact hm
        · rw [if_pos hs] at h1
          rw [Prod.mk.injEq] at h1
          obtain ⟨h1a, h1b⟩ := h1
          injection h1a with h1a
          refine ⟨⟨oid, resp⟩, ?_, rfl⟩
          rw [← h1b, ← h1a]
          show findKey k (save_idempotency db k oid _).idempotency = _
          exact save_idempotency_findKey_self db k oid _ hm
    obtain ⟨r, hr, hrr⟩ := hstored
    simp only [confirm_order, hkv, get_idempotency, hr, hrr]
  | none =>
    simp only [confirm_order, hkv] at h1 ⊢
    cases ho : findKey oid db.orders with
    | none =>
      simp only [confirmMain, ho] at h1
      simp at h1
    | some order =>
      simp only [confirmMain, ho] at h1
      by_cases hs : order.status = "DRAFT"
      · rw [if_neg (not_not_intro hs)] at h1
        split at h1
        · simp at h1
        · rw [Prod.mk.injEq] at h1
          obtain ⟨h1a, h1b⟩ := h1
          injection h1a with h1a
          have ho1 : findKey oid db1.orders =
              some { order with status := "CONFIRMED" } := by
            rw [← h1b]
            show findKey oid (set_status _ oid "CONFIRMED").orders = _
            rw [set_status_findKey_self,
              (confirmLoop_frame (list_items db oid) db).1, ho]
            rfl
          simp only [confirmMain, ho1]
          rw [if_pos (by decide), Prod.mk.injEq]
          exact ⟨h1a ▸ rfl, rfl⟩
      · rw [if_pos hs] at h1
        rw [Prod.mk.injEq] at h1
        obtain ⟨h1a, h1b⟩ := h1
        have hdb : db = db1 := h1b
        subst hdb
        simp only [confirmMain, ho]
        rw [if_pos hs, Prod.mk.injEq]
        exact ⟨h1a, rfl⟩

/-- Witness for C2: scenario E — after confirming order 10 under key k1
from exDB, replaying Confirm(10, k1) on the resulting state returns the
same response and changes nothing. -/
theorem confirm_idempotent_replay_witness :
    confirm_order exDBPost 10 (some "k1") =
      (.ok ⟨10, "CONFIRMED", "t0"⟩, exDBPost) :=
  confirm_idempotent_replay exDB exDBPost 10 (some "k1")
    ⟨10, "CONFIRMED", "t0"⟩
    (by intro k hk; simp [keyVal] at hk; subst hk; rfl)
    rfl

end BooksOrders
